import Mathlib

/-!
Verification development for the migraine migration library: the version
comparator, the reconciliation engine, the migration ledger, and the
execution orchestrator, embedded as Lean definitions with theorems about
the claims of the specification.
-/

namespace Migraine

/-- Modelled from the spec: a pre-release identifier of a semantic version
(section 4.1); the comparator itself lives in the external semver library,
outside this repository. An identifier is either numeric or alphanumeric. -/
inductive PreId where
  | num (n : Nat)
  | str (s : List Char)
deriving DecidableEq

/-- Modelled from the spec: an immutable semantic version value (section 3):
major, minor and patch numbers, optional pre-release identifiers (the empty
list meaning no pre-release), and optional build metadata, which is ignored
for ordering and equality. -/
structure Version where
  major : Nat
  minor : Nat
  patch : Nat
  prerelease : List PreId
  build : List Char
deriving DecidableEq

/-- Modelled from the spec: numeric comparison producing an Ordering. -/
def natCmpO (a b : Nat) : Ordering :=
  if a < b then Ordering.lt else if b < a then Ordering.gt else Ordering.eq

/-- Modelled from the spec: characters of alphanumeric identifiers are
compared by code point (ASCII sort order). -/
def charCmpO (a b : Char) : Ordering := natCmpO a.toNat b.toNat

/-- Modelled from the spec: lexicographic comparison of lists; a strict
prefix orders before the longer list. -/
def lexCmpO (c : α → α → Ordering) : List α → List α → Ordering
  | [], [] => Ordering.eq
  | [], _ :: _ => Ordering.lt
  | _ :: _, [] => Ordering.gt
  | a :: as, b :: bs => (c a b).then (lexCmpO c as bs)

/-- Modelled from the spec: numeric identifiers order before alphanumeric
ones; numeric ones compare numerically, alphanumeric ones in ASCII order. -/
def preIdCmpO : PreId → PreId → Ordering
  | PreId.num a, PreId.num b => natCmpO a b
  | PreId.num _, PreId.str _ => Ordering.lt
  | PreId.str _, PreId.num _ => Ordering.gt
  | PreId.str a, PreId.str b => lexCmpO charCmpO a b

/-- Modelled from the spec: pre-release precedence; a version carrying a
pre-release identifier orders before the same numeric version without one,
so the empty identifier list (no pre-release) is the greatest. -/
def prereleaseCmpO : List PreId → List PreId → Ordering
  | [], [] => Ordering.eq
  | [], _ :: _ => Ordering.gt
  | _ :: _, [] => Ordering.lt
  | a :: as, b :: bs => (preIdCmpO a b).then (lexCmpO preIdCmpO as bs)

/-- Modelled from the spec: total order on versions by major, then minor,
then patch, then pre-release precedence; build metadata is excluded from
the comparison (section 4.1). -/
def versionCmpO (a b : Version) : Ordering :=
  (natCmpO a.major b.major).then ((natCmpO a.minor b.minor).then
    ((natCmpO a.patch b.patch).then (prereleaseCmpO a.prerelease b.prerelease)))

/-- Conversion of an Ordering to the integer comparator outcome. -/
def ordToInt : Ordering → Int
  | Ordering.lt => -1
  | Ordering.eq => 0
  | Ordering.gt => 1

/-- Modelled from the spec: compare(a, b) returns -1, 0 or 1 (section 4.1);
this is the comparator the reconciliation engine calls. -/
def Version.compare (a b : Version) : Int := ordToInt (versionCmpO a b)

/-- The ascending relation the sorting step uses when reverse is false. -/
def versionLe (a b : Version) : Prop := Version.compare a b ≤ 0

/-- The descending relation the sorting step uses when reverse is true. -/
def versionGe (a b : Version) : Prop := 0 ≤ Version.compare a b

instance : DecidableRel versionLe :=
  fun a b => inferInstanceAs (Decidable (Version.compare a b ≤ 0))

instance : DecidableRel versionGe :=
  fun a b => inferInstanceAs (Decidable (0 ≤ Version.compare a b))

/-- Migration direction, from the source enum with members FORWARD and
BACKWARD. -/
inductive MigrationDirection where
  | FORWARD
  | BACKWARD
deriving DecidableEq

/-- Error classes of the source: MigrationError and ProjectInspectionError
are the exported exception classes, runtimeError models the RuntimeError
raised on an unexpected comparison result, and stopIteration models the
StopIteration escaping from next() inside the helper that resolves a
script by version. -/
inductive MigraineError where
  | migrationError (message : String)
  | projectInspectionError (message : String)
  | runtimeError (message : String)
  | stopIteration
deriving DecidableEq

/-- The error value raised by the unreachable branch of the strategy
computation: a RuntimeError, not one of the exported error classes. -/
def unexpectedComparisonError : MigraineError :=
  MigraineError.runtimeError ("Unexpected version comparison result")

/-- File paths of migration scripts, abstracted as strings. -/
abbrev Path := String

/-- The sorting step of the strategy computation: sorted with a comparator
key and a reverse flag, which is a stable sort, ascending under the
comparator when reverse is false and descending when reverse is true. -/
def sortVersions (reverse : Bool) (versions : List Version) : List Version :=
  if reverse then List.insertionSort versionGe versions
  else List.insertionSort versionLe versions

/-- Embedding of the source function that computes the migration strategy
from the current version, the target version and the available versions:
equal versions give no strategy; a forward run selects the available
versions strictly above current and not above target, ascending; a backward
run selects the available versions not above current and strictly above
target, descending; any other comparison outcome raises RuntimeError. -/
def calculateMigrationStrategy (currentVersion targetVersion : Version)
    (availableVersions : List Version) :
    Except MigraineError (Option (MigrationDirection × List Version)) :=
  if Version.compare currentVersion targetVersion = 0 then
    Except.ok none
  else if Version.compare currentVersion targetVersion = -1 then
    Except.ok (some (MigrationDirection.FORWARD,
      sortVersions false
        ((availableVersions.filter
            (fun x => Version.compare currentVersion x == -1)).filter
          (fun x => Version.compare targetVersion x == 1 ||
            Version.compare targetVersion x == 0))))
  else if Version.compare currentVersion targetVersion = 1 then
    Except.ok (some (MigrationDirection.BACKWARD,
      sortVersions true
        ((availableVersions.filter
            (fun x => Version.compare currentVersion x == 1 ||
              Version.compare currentVersion x == 0)).filter
          (fun x => Version.compare targetVersion x == -1))))
  else
    Except.error unexpectedComparisonError

/-- A ledger entry, from the source model with a version and the wall clock
datetime at which it was applied; the datetime is modelled as a number. -/
structure Migration where
  version : Version
  application_datetime : Nat
deriving DecidableEq

/-- Embedding of the ledger read: the collection sorted by
application_datetime descending and limited to one document yields an entry
with the maximal datetime, or none when the ledger is empty. -/
def findLastMigration : List Migration → Option Migration
  | [] => none
  | m :: ms =>
    match findLastMigration ms with
    | none => some m
    | some m2 =>
      some (if m2.application_datetime > m.application_datetime then m2 else m)

/-- The initial database version 0.0.0 used when the ledger is empty. -/
def initialDatabaseVersion : Version :=
  { major := 0, minor := 0, patch := 0, prerelease := [], build := [] }

/-- The current database version the orchestrator derives from the ledger:
the version of the last migration, or 0.0.0 when there is none. -/
def currentVersionOf (ledger : List Migration) : Version :=
  match findLastMigration ledger with
  | none => initialDatabaseVersion
  | some m => m.version

/-- Embedding of the script lookup inside the migrate loop: the first
script file whose version compares equal to the requested one, or none;
in the source a missing match makes next() raise StopIteration. -/
def findScript (version : Version) :
    List (Version × Path) → Option (Version × Path)
  | [] => none
  | x :: xs =>
    if Version.compare x.1 version = 0 then some x else findScript version xs

/-- Embedding of the migrate loop: each strategy version is resolved to a
script file and run in order, recording which file ran in which direction;
a missing script surfaces the StopIteration of the lookup helper. -/
def runStrategy (direction : MigrationDirection) :
    List Version → List (Version × Path) →
      Except MigraineError (List (Version × Path × MigrationDirection))
  | [], _ => Except.ok []
  | v :: vs, scriptFiles =>
    match findScript v scriptFiles with
    | none => Except.error MigraineError.stopIteration
    | some (_, file) =>
      match runStrategy direction vs scriptFiles with
      | Except.error e => Except.error e
      | Except.ok executed => Except.ok ((v, file, direction) :: executed)

/-- Embedding of the orchestrator: read the last ledger entry inside the
transaction, compute the strategy against the target version, return with
no ledger write on no strategy, otherwise run every selected script in
order and append one ledger entry for the target version; any error aborts
the transaction, so an error result carries no state change. The result of
a successful run is the final ledger plus the executed script log. -/
def migrate (targetVersion : Version) (scriptFiles : List (Version × Path))
    (ledger : List Migration) (now : Nat) :
    Except MigraineError (List Migration × List (Version × Path × MigrationDirection)) :=
  match calculateMigrationStrategy (currentVersionOf ledger) targetVersion
      (scriptFiles.map Prod.fst) with
  | Except.error e => Except.error e
  | Except.ok none => Except.ok (ledger, [])
  | Except.ok (some (direction, migrationVersions)) =>
    match runStrategy direction migrationVersions scriptFiles with
    | Except.error e => Except.error e
    | Except.ok executed =>
      Except.ok (ledger ++ [Migration.mk targetVersion now], executed)

/-- The version 0.0.0. -/
def v000 : Version := { major := 0, minor := 0, patch := 0, prerelease := [], build := [] }

/-- The version 0.0.1. -/
def v001 : Version := { major := 0, minor := 0, patch := 1, prerelease := [], build := [] }

/-- The version 0.0.2. -/
def v002 : Version := { major := 0, minor := 0, patch := 2, prerelease := [], build := [] }

/-- A comparator is lawful when it is reflexive, antisymmetric under swap,
congruent on comparison-equal arguments, and transitive on strict results. -/
def LawfulCmp (c : α → α → Ordering) : Prop :=
  (∀ a, c a a = Ordering.eq) ∧
  (∀ a b, c a b = (c b a).swap) ∧
  (∀ a b, c a b = Ordering.eq → ∀ x, c a x = c b x) ∧
  (∀ a b d, c a b = Ordering.lt → c b d = Ordering.lt → c a d = Ordering.lt)

theorem then_eq_iff (a b : Ordering) :
    a.then b = Ordering.eq ↔ a = Ordering.eq ∧ b = Ordering.eq := by
  cases a <;> simp [Ordering.then]

theorem then_lt_cases (a b : Ordering) (h : a.then b = Ordering.lt) :
    a = Ordering.lt ∨ (a = Ordering.eq ∧ b = Ordering.lt) := by
  cases a <;> simp_all [Ordering.then]

theorem then_swap (a b : Ordering) : (a.then b).swap = a.swap.then b.swap := by
  cases a <;> rfl

theorem lawfulCmp_congrR {c : α → α → Ordering} (hc : LawfulCmp c)
    {a b : α} (h : c a b = Ordering.eq) (x : α) : c x a = c x b := by
  rw [hc.2.1 x a, hc.2.1 x b, hc.2.2.1 a b h x]

theorem natCmpO_lawful : LawfulCmp natCmpO := by
  refine ⟨?_, ?_, ?_, ?_⟩
  · intro a; simp [natCmpO]
  · intro a b
    unfold natCmpO
    split_ifs <;> first | rfl | exact (by omega : False).elim
  · intro a b h x
    have hab : a = b := by
      unfold natCmpO at h
      split_ifs at h
      omega
    rw [hab]
  · intro a b d h1 h2
    unfold natCmpO at h1 h2 ⊢
    split_ifs at h1 h2 ⊢ <;> first | rfl | omega

theorem charCmpO_lawful : LawfulCmp charCmpO :=
  ⟨fun a => natCmpO_lawful.1 a.toNat,
   fun a b => natCmpO_lawful.2.1 a.toNat b.toNat,
   fun a b h x => natCmpO_lawful.2.2.1 a.toNat b.toNat h x.toNat,
   fun a b d h1 h2 => natCmpO_lawful.2.2.2 a.toNat b.toNat d.toNat h1 h2⟩

theorem lexCmpO_refl {c : α → α → Ordering} (hc : LawfulCmp c) :
    ∀ l, lexCmpO c l l = Ordering.eq
  | [] => rfl
  | a :: l => by
    show (c a a).then (lexCmpO c l l) = Ordering.eq
    rw [hc.1 a, lexCmpO_refl hc l]
    rfl

theorem lexCmpO_swap {c : α → α → Ordering} (hc : LawfulCmp c) :
    ∀ l1 l2, lexCmpO c l1 l2 = (lexCmpO c l2 l1).swap
  | [], [] => rfl
  | [], _ :: _ => rfl
  | _ :: _, [] => rfl
  | a :: as, b :: bs => by
    show (c a b).then (lexCmpO c as bs) = ((c b a).then (lexCmpO c bs as)).swap
    rw [then_swap, ← hc.2.1 a b, ← lexCmpO_swap hc as bs]

theorem lexCmpO_congrL {c : α → α → Ordering} (hc : LawfulCmp c) :
    ∀ l1 l2, lexCmpO c l1 l2 = Ordering.eq → ∀ l3, lexCmpO c l1 l3 = lexCmpO c l2 l3
  | [], [], _, _ => rfl
  | [], _ :: _, h, _ => nomatch h
  | _ :: _, [], h, _ => nomatch h
  | a :: as, b :: bs, h, l3 => by
    rw [show lexCmpO c (a :: as) (b :: bs) = (c a b).then (lexCmpO c as bs) from rfl,
      then_eq_iff] at h
    cases l3 with
    | nil => rfl
    | cons x xs =>
      show (c a x).then (lexCmpO c as xs) = (c b x).then (lexCmpO c bs xs)
      rw [hc.2.2.1 a b h.1 x, lexCmpO_congrL hc as bs h.2 xs]

theorem lexCmpO_ltTrans {c : α → α → Ordering} (hc : LawfulCmp c) :
    ∀ l1 l2 l3, lexCmpO c l1 l2 = Ordering.lt → lexCmpO c l2 l3 = Ordering.lt →
      lexCmpO c l1 l3 = Ordering.lt
  | [], [], _, h1, _ => nomatch h1
  | [], _ :: _, [], _, h2 => nomatch h2
  | [], _ :: _, _ :: _, _, _ => rfl
  | _ :: _, [], _, h1, _ => nomatch h1
  | _ :: _, _ :: _, [], _, h2 => nomatch h2
  | a :: as, b :: bs, d :: ds, h1, h2 => by
    have h1c := then_lt_cases (c a b) (lexCmpO c as bs) h1
    have h2c := then_lt_cases (c b d) (lexCmpO c bs ds) h2
    show (c a d).then (lexCmpO c as ds) = Ordering.lt
    rcases h1c with ha | ⟨ha, ha2⟩ <;> rcases h2c with hb | ⟨hb, hb2⟩
    · rw [hc.2.2.2 a b d ha hb]; rfl
    · rw [← lawfulCmp_congrR hc hb a, ha]; rfl
    · rw [hc.2.2.1 a b ha d, hb]; rfl
    · rw [hc.2.2.1 a b ha d, hb]
      exact lexCmpO_ltTrans hc as bs ds ha2 hb2

theorem lexCmpO_lawful {c : α → α → Ordering} (hc : LawfulCmp c) :
    LawfulCmp (lexCmpO c) :=
  ⟨lexCmpO_refl hc, lexCmpO_swap hc, lexCmpO_congrL hc, lexCmpO_ltTrans hc⟩

theorem preIdCmpO_lawful : LawfulCmp preIdCmpO := by
  have hs := lexCmpO_lawful charCmpO_lawful
  refine ⟨?_, ?_, ?_, ?_⟩
  · intro a
    cases a with
    | num n => exact natCmpO_lawful.1 n
    | str s => exact hs.1 s
  · intro a b
    cases a with
    | num m =>
      cases b with
      | num n => exact natCmpO_lawful.2.1 m n
      | str t => rfl
    | str s =>
      cases b with
      | num n => rfl
      | str t => exact hs.2.1 s t
  · intro a b h x
    cases a with
    | num m =>
      cases b with
      | num n =>
        cases x with
        | num k => exact natCmpO_lawful.2.2.1 m n h k
        | str u => rfl
      | str t => exact nomatch h
    | str s =>
      cases b with
      | num n => exact nomatch h
      | str t =>
        cases x with
        | num k => rfl
        | str u => exact hs.2.2.1 s t h u
  · intro a b d h1 h2
    cases a with
    | num m =>
      cases b with
      | num n =>
        cases d with
        | num k => exact natCmpO_lawful.2.2.2 m n k h1 h2
        | str u => rfl
      | str t =>
        cases d with
        | num k => exact nomatch h2
        | str u => rfl
    | str s =>
      cases b with
      | num n => exact nomatch h1
      | str t =>
        cases d with
        | num k => exact nomatch h2
        | str u => exact hs.2.2.2 s t u h1 h2

theorem prereleaseCmpO_lawful : LawfulCmp prereleaseCmpO := by
  have hl := lexCmpO_lawful preIdCmpO_lawful
  refine ⟨?_, ?_, ?_, ?_⟩
  · intro a
    cases a with
    | nil => rfl
    | cons x xs => exact hl.1 (x :: xs)
  · intro a b
    cases a with
    | nil => cases b <;> rfl
    | cons x xs =>
      cases b with
      | nil => rfl
      | cons y ys => exact hl.2.1 (x :: xs) (y :: ys)
  · intro a b h x
    cases a with
    | nil =>
      cases b with
      | nil => rfl
      | cons y ys => exact nomatch h
    | cons y ys =>
      cases b with
      | nil => exact nomatch h
      | cons z zs =>
        cases x with
        | nil => rfl
        | cons w ws => exact hl.2.2.1 (y :: ys) (z :: zs) h (w :: ws)
  · intro a b d h1 h2
    cases a with
    | nil =>
      cases b with
      | nil => exact nomatch h1
      | cons y ys => exact nomatch h1
    | cons x xs =>
      cases b with
      | nil => cases d <;> exact nomatch h2
      | cons y ys =>
        cases d with
        | nil => rfl
        | cons z zs => exact hl.2.2.2 (x :: xs) (y :: ys) (z :: zs) h1 h2

theorem lawful_byKey {c : β → β → Ordering} (hc : LawfulCmp c) (f : α → β) :
    LawfulCmp (fun a b => c (f a) (f b)) :=
  ⟨fun a => hc.1 (f a), fun a b => hc.2.1 (f a) (f b),
   fun a b h x => hc.2.2.1 (f a) (f b) h (f x),
   fun a b d u v => hc.2.2.2 (f a) (f b) (f d) u v⟩

theorem lawful_thenCmp {c1 c2 : α → α → Ordering}
    (h1 : LawfulCmp c1) (h2 : LawfulCmp c2) :
    LawfulCmp (fun a b => (c1 a b).then (c2 a b)) := by
  refine ⟨?_, ?_, ?_, ?_⟩
  · intro a
    show (c1 a a).then (c2 a a) = Ordering.eq
    rw [h1.1 a, h2.1 a]
    rfl
  · intro a b
    show (c1 a b).then (c2 a b) = ((c1 b a).then (c2 b a)).swap
    rw [h1.2.1 a b, h2.2.1 a b, then_swap]
  · intro a b h x
    rw [show ((fun a b => (c1 a b).then (c2 a b)) a b = Ordering.eq)
      = ((c1 a b).then (c2 a b) = Ordering.eq) from rfl, then_eq_iff] at h
    show (c1 a x).then (c2 a x) = (c1 b x).then (c2 b x)
    rw [h1.2.2.1 a b h.1 x, h2.2.2.1 a b h.2 x]
  · intro a b d hab hbd
    have habc := then_lt_cases (c1 a b) (c2 a b) hab
    have hbdc := then_lt_cases (c1 b d) (c2 b d) hbd
    show (c1 a d).then (c2 a d) = Ordering.lt
    rcases habc with ha | ⟨ha, ha2⟩ <;> rcases hbdc with hb | ⟨hb, hb2⟩
    · rw [h1.2.2.2 a b d ha hb]; rfl
    · rw [← lawfulCmp_congrR h1 hb a, ha]; rfl
    · rw [h1.2.2.1 a b ha d, hb]; rfl
    · rw [h1.2.2.1 a b ha d, hb]
      exact h2.2.2.2 a b d ha2 hb2

theorem versionCmpO_lawful : LawfulCmp versionCmpO :=
  lawful_thenCmp (lawful_byKey natCmpO_lawful Version.major)
    (lawful_thenCmp (lawful_byKey natCmpO_lawful Version.minor)
      (lawful_thenCmp (lawful_byKey natCmpO_lawful Version.patch)
        (lawful_byKey prereleaseCmpO_lawful Version.prerelease)))

theorem compare_refl (a : Version) : Version.compare a a = 0 := by
  unfold Version.compare
  rw [versionCmpO_lawful.1 a]
  rfl

theorem compare_trichotomy (a b : Version) :
    Version.compare a b = -1 ∨ Version.compare a b = 0 ∨ Version.compare a b = 1 := by
  unfold Version.compare
  cases versionCmpO a b <;> simp [ordToInt]

theorem compare_swap (a b : Version) : Version.compare a b = -Version.compare b a := by
  unfold Version.compare
  rw [versionCmpO_lawful.2.1 a b]
  cases versionCmpO b a <;> decide

theorem compare_eq_ordToInt_iff (a b : Version) (o : Ordering) :
    Version.compare a b = ordToInt o ↔ versionCmpO a b = o := by
  unfold Version.compare
  cases versionCmpO a b <;> cases o <;> simp [ordToInt]

theorem compare_le_zero_iff (a b : Version) :
    Version.compare a b ≤ 0 ↔
      versionCmpO a b = Ordering.lt ∨ versionCmpO a b = Ordering.eq := by
  unfold Version.compare
  cases versionCmpO a b <;> simp [ordToInt]

theorem versionLe_trans : ∀ a b c : Version, versionLe a b → versionLe b c → versionLe a c := by
  intro a b c hab hbc
  unfold versionLe at hab hbc ⊢
  rw [compare_le_zero_iff] at hab hbc ⊢
  rcases hab with h1 | h1 <;> rcases hbc with h2 | h2
  · exact Or.inl (versionCmpO_lawful.2.2.2 a b c h1 h2)
  · left
    rw [← lawfulCmp_congrR versionCmpO_lawful h2 a]
    exact h1
  · left
    rw [versionCmpO_lawful.2.2.1 a b h1 c]
    exact h2
  · right
    rw [versionCmpO_lawful.2.2.1 a b h1 c]
    exact h2

theorem versionLe_total : ∀ a b : Version, versionLe a b ∨ versionLe b a := by
  intro a b
  unfold versionLe
  have h := compare_swap a b
  rcases compare_trichotomy a b with h1 | h1 | h1 <;> omega

theorem versionGe_iff (a b : Version) : versionGe a b ↔ versionLe b a := by
  unfold versionGe versionLe
  have h := compare_swap a b
  omega

instance : IsTrans Version versionLe := ⟨versionLe_trans⟩

instance : IsTotal Version versionLe := ⟨versionLe_total⟩

instance : IsTrans Version versionGe := ⟨fun a b c h1 h2 =>
  (versionGe_iff a c).mpr
    (versionLe_trans c b a ((versionGe_iff b c).mp h2) ((versionGe_iff a b).mp h1))⟩

instance : IsTotal Version versionGe := ⟨fun a b => by
  rcases versionLe_total a b with h | h
  · exact Or.inr ((versionGe_iff b a).mpr h)
  · exact Or.inl ((versionGe_iff a b).mpr h)⟩


theorem forward_pred_eq (current target v : Version) :
    ((Version.compare target v == 1 || Version.compare target v == 0) &&
      (Version.compare current v == -1))
    = (Version.compare current v == -1 &&
      (Version.compare v target == -1 || Version.compare v target == 0)) := by
  have hsw := compare_swap target v
  rcases compare_trichotomy target v with h1 | h1 | h1 <;>
    · have hv : Version.compare v target = -Version.compare target v := by omega
      rw [h1] at hv ⊢
      norm_num at hv
      simp [hv, Bool.and_comm]

theorem backward_pred_eq (current target v : Version) :
    ((Version.compare target v == -1) &&
      (Version.compare current v == 1 || Version.compare current v == 0))
    = (Version.compare target v == -1 &&
      (Version.compare v current == -1 || Version.compare v current == 0)) := by
  have hsw := compare_swap current v
  rcases compare_trichotomy current v with h1 | h1 | h1 <;>
    · have hv : Version.compare v current = -Version.compare current v := by omega
      rw [h1] at hv ⊢
      norm_num at hv
      simp [hv]

theorem forward_filter_eq (current target : Version) (available : List Version) :
    (available.filter (fun x => Version.compare current x == -1)).filter
      (fun x => Version.compare target x == 1 || Version.compare target x == 0)
    = available.filter (fun v => Version.compare current v == -1 &&
        (Version.compare v target == -1 || Version.compare v target == 0)) := by
  rw [List.filter_filter]
  exact List.filter_congr (fun a _ => forward_pred_eq current target a)

theorem backward_filter_eq (current target : Version) (available : List Version) :
    (available.filter (fun x => Version.compare current x == 1 ||
        Version.compare current x == 0)).filter
      (fun x => Version.compare target x == -1)
    = available.filter (fun v => Version.compare target v == -1 &&
        (Version.compare v current == -1 || Version.compare v current == 0)) := by
  rw [List.filter_filter]
  exact List.filter_congr (fun a _ => backward_pred_eq current target a)

theorem mem_sortVersions (reverse : Bool) (l : List Version) (v : Version) :
    v ∈ sortVersions reverse l ↔ v ∈ l := by
  unfold sortVersions
  split_ifs <;> exact (List.perm_insertionSort _ l).mem_iff

theorem calc_eq_of_compare_zero (current target : Version) (available : List Version)
    (h : Version.compare current target = 0) :
    calculateMigrationStrategy current target available = Except.ok none := by
  unfold calculateMigrationStrategy
  rw [h]
  norm_num

theorem calc_eq_of_compare_neg (current target : Version) (available : List Version)
    (h : Version.compare current target = -1) :
    calculateMigrationStrategy current target available
      = Except.ok (some (MigrationDirection.FORWARD,
          sortVersions false
            ((available.filter (fun x => Version.compare current x == -1)).filter
              (fun x => Version.compare target x == 1 ||
                Version.compare target x == 0)))) := by
  unfold calculateMigrationStrategy
  rw [h]
  norm_num

theorem calc_eq_of_compare_pos (current target : Version) (available : List Version)
    (h : Version.compare current target = 1) :
    calculateMigrationStrategy current target available
      = Except.ok (some (MigrationDirection.BACKWARD,
          sortVersions true
            ((available.filter (fun x => Version.compare current x == 1 ||
                Version.compare current x == 0)).filter
              (fun x => Version.compare target x == -1)))) := by
  unfold calculateMigrationStrategy
  rw [h]
  norm_num

theorem calcStrategy_isOk (current target : Version) (available : List Version) :
    ∃ r, calculateMigrationStrategy current target available = Except.ok r := by
  rcases compare_trichotomy current target with h | h | h
  · exact ⟨_, calc_eq_of_compare_neg current target available h⟩
  · exact ⟨_, calc_eq_of_compare_zero current target available h⟩
  · exact ⟨_, calc_eq_of_compare_pos current target available h⟩

theorem calc_versions_mem (current target : Version) (available : List Version)
    (d : MigrationDirection) (l : List Version)
    (h : calculateMigrationStrategy current target available
      = Except.ok (some (d, l))) :
    ∀ v ∈ l, v ∈ available := by
  intro v hv
  rcases compare_trichotomy current target with hc | hc | hc
  · rw [calc_eq_of_compare_neg current target available hc] at h
    simp only [Except.ok.injEq, Option.some.injEq, Prod.mk.injEq] at h
    rw [← h.2, mem_sortVersions] at hv
    exact List.mem_of_mem_filter (List.mem_of_mem_filter hv)
  · rw [calc_eq_of_compare_zero current target available hc] at h
    cases h
  · rw [calc_eq_of_compare_pos current target available hc] at h
    simp only [Except.ok.injEq, Option.some.injEq, Prod.mk.injEq] at h
    rw [← h.2, mem_sortVersions] at hv
    exact List.mem_of_mem_filter (List.mem_of_mem_filter hv)

theorem findScript_isSome (v : Version) :
    ∀ scriptFiles : List (Version × Path), v ∈ scriptFiles.map Prod.fst →
      ∃ x, findScript v scriptFiles = some x
  | [], h => by simp at h
  | x :: xs, h => by
    unfold findScript
    by_cases hx : Version.compare x.1 v = 0
    · exact ⟨x, by rw [if_pos hx]⟩
    · rw [if_neg hx]
      rcases List.mem_cons.mp h with h1 | h1
      · exact absurd (h1 ▸ compare_refl x.1) hx
      · exact findScript_isSome v xs h1

theorem runStrategy_isOk (d : MigrationDirection) :
    ∀ versions : List Version, ∀ scriptFiles : List (Version × Path),
      (∀ v ∈ versions, v ∈ scriptFiles.map Prod.fst) →
      ∃ ex, runStrategy d versions scriptFiles = Except.ok ex
  | [], _, _ => ⟨[], rfl⟩
  | v :: vs, scriptFiles, h => by
    obtain ⟨x, hx⟩ := findScript_isSome v scriptFiles (h v (by simp))
    obtain ⟨ex, hex⟩ := runStrategy_isOk d vs scriptFiles
      (fun u hu => h u (List.mem_cons_of_mem v hu))
    obtain ⟨xv, xf⟩ := x
    refine ⟨(v, xf, d) :: ex, ?_⟩
    unfold runStrategy
    rw [hx, hex]

theorem migrate_isOk (target : Version) (scriptFiles : List (Version × Path))
    (ledger : List Migration) (now : Nat) :
    ∃ r, migrate target scriptFiles ledger now = Except.ok r := by
  obtain ⟨r, hr⟩ := calcStrategy_isOk (currentVersionOf ledger) target
    (scriptFiles.map Prod.fst)
  rcases r with _ | ⟨d, vs⟩
  · exact ⟨(ledger, []), by simp [migrate, hr]⟩
  · obtain ⟨ex, hex⟩ := runStrategy_isOk d vs scriptFiles
      (calc_versions_mem _ _ _ _ _ hr)
    exact ⟨(ledger ++ [Migration.mk target now], ex), by simp [migrate, hr, hex]⟩

theorem findLastMigration_cons_isSome (m : Migration) (ms : List Migration) :
    ∃ m2, findLastMigration (m :: ms) = some m2 := by
  unfold findLastMigration
  cases findLastMigration ms with
  | none => exact ⟨m, rfl⟩
  | some x => exact ⟨_, rfl⟩

theorem findLastMigration_spec :
    ∀ (ledger : List Migration) (m : Migration), findLastMigration ledger = some m →
      m ∈ ledger ∧ ∀ m2 ∈ ledger, m2.application_datetime ≤ m.application_datetime
  | [], _, h => nomatch h
  | x :: xs, m, h => by
    unfold findLastMigration at h
    cases hxs : findLastMigration xs with
    | none =>
      rw [hxs] at h
      injection h with h
      subst h
      have hnil : xs = [] := by
        cases xs with
        | nil => rfl
        | cons y ys =>
          obtain ⟨m2, hm2⟩ := findLastMigration_cons_isSome y ys
          rw [hm2] at hxs
          cases hxs
      subst hnil
      refine ⟨List.mem_singleton_self _, ?_⟩
      intro m2 hm2
      rw [List.mem_singleton] at hm2
      rw [hm2]
    | some m2 =>
      rw [hxs] at h
      injection h with h
      obtain ⟨hmem, hmax⟩ := findLastMigration_spec xs m2 hxs
      by_cases hgt : m2.application_datetime > x.application_datetime
      · rw [if_pos hgt] at h
        subst h
        refine ⟨List.mem_cons_of_mem x hmem, ?_⟩
        intro m3 hm3
        rcases List.mem_cons.mp hm3 with h3 | h3
        · rw [h3]; omega
        · exact hmax m3 h3
      · rw [if_neg hgt] at h
        subst h
        refine ⟨List.mem_cons_self _ _, ?_⟩
        intro m3 hm3
        rcases List.mem_cons.mp hm3 with h3 | h3
        · rw [h3]
        · have := hmax m3 h3
          omega

/-- Claim C1: for every current version, target version and collection of
available versions with current below target, the reconciliation returns
direction Forward together with exactly those available versions v with
current < v and v ≤ target, sorted ascending in the comparator order. -/
theorem c1_forward_strategy (current target : Version) (available : List Version)
    (h : Version.compare current target = -1) :
    ∃ l : List Version,
      calculateMigrationStrategy current target available
        = Except.ok (some (MigrationDirection.FORWARD, l))
      ∧ l.Perm (available.filter (fun v => Version.compare current v == -1 &&
          (Version.compare v target == -1 || Version.compare v target == 0)))
      ∧ List.Sorted versionLe l := by
  refine ⟨_, calc_eq_of_compare_neg current target available h, ?_, ?_⟩
  · rw [← forward_filter_eq current target available]
    exact List.perm_insertionSort versionLe _
  · exact List.sorted_insertionSort versionLe _

/-- Claim C1 witness: reconciling 0.0.0 towards 0.0.2 over the available versions
0.0.1 and 0.0.2 instantiates the forward theorem. -/
theorem c1_forward_strategy_witness :
    Version.compare v000 v002 = -1 ∧
    ∃ l : List Version,
      calculateMigrationStrategy v000 v002 [v001, v002]
        = Except.ok (some (MigrationDirection.FORWARD, l))
      ∧ l.Perm ([v001, v002].filter (fun v => Version.compare v000 v == -1 &&
          (Version.compare v v002 == -1 || Version.compare v v002 == 0)))
      ∧ List.Sorted versionLe l :=
  ⟨by decide, c1_forward_strategy v000 v002 [v001, v002] (by decide)⟩

/-- Claim C2: for every current version, target version and collection of
available versions with current above target, the reconciliation returns
direction Backward together with exactly those available versions v with
target < v and v ≤ current, sorted descending in the comparator order. -/
theorem c2_backward_strategy (current target : Version) (available : List Version)
    (h : Version.compare current target = 1) :
    ∃ l : List Version,
      calculateMigrationStrategy current target available
        = Except.ok (some (MigrationDirection.BACKWARD, l))
      ∧ l.Perm (available.filter (fun v => Version.compare target v == -1 &&
          (Version.compare v current == -1 || Version.compare v current == 0)))
      ∧ List.Sorted versionGe l := by
  refine ⟨_, calc_eq_of_compare_pos current target available h, ?_, ?_⟩
  · rw [← backward_filter_eq current target available]
    exact List.perm_insertionSort versionGe _
  · exact List.sorted_insertionSort versionGe _

/-- Claim C2 witness: reconciling 0.0.2 down to 0.0.0 over the available versions
0.0.1 and 0.0.2 instantiates the backward theorem. -/
theorem c2_backward_strategy_witness :
    Version.compare v002 v000 = 1 ∧
    ∃ l : List Version,
      calculateMigrationStrategy v002 v000 [v001, v002]
        = Except.ok (some (MigrationDirection.BACKWARD, l))
      ∧ l.Perm ([v001, v002].filter (fun v => Version.compare v000 v == -1 &&
          (Version.compare v v002 == -1 || Version.compare v v002 == 0)))
      ∧ List.Sorted versionGe l :=
  ⟨by decide, c2_backward_strategy v002 v000 [v001, v002] (by decide)⟩

/-- Claim C6: reconciling with comparison outcome zero between current and target
yields the no-strategy value regardless of the available versions, and in
particular reconciling any version with itself is a no-op. -/
theorem c6_noop_on_equal :
    (∀ (v : Version) (available : List Version),
      calculateMigrationStrategy v v available = Except.ok none)
    ∧ ∀ (current target : Version) (available : List Version),
        Version.compare current target = 0 →
        calculateMigrationStrategy current target available = Except.ok none := by
  constructor
  · intro v available
    exact calc_eq_of_compare_zero v v available (compare_refl v)
  · intro current target available h
    exact calc_eq_of_compare_zero current target available h

/-- Claim C6 witness: reconciling 0.0.1 with itself over a nonempty available
collection returns the no-strategy value. -/
theorem c6_noop_on_equal_witness :
    calculateMigrationStrategy v001 v001 [v001, v002] = Except.ok none :=
  c6_noop_on_equal.2 v001 v001 [v001, v002] (by decide)

/-- Claim C9: the comparator is total over the three outcomes -1, 0 and 1, so the
defensive branch of the strategy computation is unreachable: every call
returns a successful value; and the error value carried by that branch is a
RuntimeError, distinct from the user-facing MigrationError class. -/
theorem c9_comparator_totality :
    (∀ a b : Version,
      Version.compare a b = -1 ∨ Version.compare a b = 0 ∨ Version.compare a b = 1)
    ∧ (∀ (current target : Version) (available : List Version),
        ∃ r, calculateMigrationStrategy current target available = Except.ok r)
    ∧ ∀ m : String,
        (unexpectedComparisonError == MigraineError.migrationError m) = false := by
  refine ⟨compare_trichotomy, calcStrategy_isOk, ?_⟩
  intro m
  rfl

/-- Claim C3 counterexample: reconciling 0.0.2 down to 0.0.0 over the available
versions 0.0.1 and 0.0.2 selects 0.0.2, which is the version equal to
current, so a version equal to current does appear in the selected list of
a backward strategy. -/
theorem c3_counterexample :
    calculateMigrationStrategy v002 v000 [v001, v002]
      = Except.ok (some (MigrationDirection.BACKWARD, [v002, v001]))
    ∧ v002 ∈ [v002, v001] :=
  ⟨rfl, List.mem_cons_self v002 [v001]⟩

/-- Claim C3 amended: every version selected by a forward strategy compares
strictly above current, so a version equal to current is never selected
forward; every version selected by a backward strategy compares strictly
above target, so a version equal to target is never selected backward and
appears only in the forward direction; in the backward direction the
version equal to current can be selected. -/
theorem c3_amended_boundaries (current target : Version) (available : List Version)
    (d : MigrationDirection) (l : List Version)
    (h : calculateMigrationStrategy current target available
      = Except.ok (some (d, l))) :
    (d = MigrationDirection.FORWARD →
      (∀ v ∈ l, Version.compare current v = -1) ∧ current ∉ l)
    ∧ (d = MigrationDirection.BACKWARD →
      (∀ v ∈ l, Version.compare target v = -1) ∧ target ∉ l) := by
  rcases compare_trichotomy current target with hc | hc | hc
  · rw [calc_eq_of_compare_neg current target available hc] at h
    simp only [Except.ok.injEq, Option.some.injEq, Prod.mk.injEq] at h
    obtain ⟨hd, hl⟩ := h
    have hmem : ∀ v ∈ l, Version.compare current v = -1 := by
      intro v hv
      rw [← hl, mem_sortVersions] at hv
      have hv1 := List.mem_filter.mp hv
      have hv2 := List.mem_filter.mp hv1.1
      simpa using hv2.2
    constructor
    · intro _
      refine ⟨hmem, fun hcur => ?_⟩
      have hr := hmem current hcur
      rw [compare_refl current] at hr
      exact absurd hr (by decide)
    · intro hb
      rw [← hd] at hb
      cases hb
  · rw [calc_eq_of_compare_zero current target available hc] at h
    simp at h
  · rw [calc_eq_of_compare_pos current target available hc] at h
    simp only [Except.ok.injEq, Option.some.injEq, Prod.mk.injEq] at h
    obtain ⟨hd, hl⟩ := h
    have hmem : ∀ v ∈ l, Version.compare target v = -1 := by
      intro v hv
      rw [← hl, mem_sortVersions] at hv
      have hv1 := List.mem_filter.mp hv
      simpa using hv1.2
    constructor
    · intro hf
      rw [← hd] at hf
      cases hf
    · intro _
      refine ⟨hmem, fun htar => ?_⟩
      have hr := hmem target htar
      rw [compare_refl target] at hr
      exact absurd hr (by decide)

/-- Claim C3 amended witness: the forward reconciliation of 0.0.0 towards 0.0.1
over the single available version 0.0.1 instantiates the boundary
theorem. -/
theorem c3_amended_boundaries_witness :
    (MigrationDirection.FORWARD = MigrationDirection.FORWARD →
      (∀ v ∈ [v001], Version.compare v000 v = -1) ∧ v000 ∉ [v001])
    ∧ (MigrationDirection.FORWARD = MigrationDirection.BACKWARD →
      (∀ v ∈ [v001], Version.compare v001 v = -1) ∧ v001 ∉ [v001]) :=
  c3_amended_boundaries v000 v001 [v001] MigrationDirection.FORWARD [v001] rfl

/-- Claim C4: the behaviour around a missing script: resolving version 0.0.2
against a script list holding only 0.0.1 finds nothing, and the loop then
surfaces the StopIteration of the lookup helper rather than any
MigrationError; moreover inside migrate the lookup never fails, because the
strategy versions are drawn from the same script list, so migrate always
returns successfully. -/
theorem c4_missing_script_behaviour :
    findScript v002 [(v001, "0.0.1.py")] = none
    ∧ runStrategy MigrationDirection.FORWARD [v002] [(v001, "0.0.1.py")]
      = Except.error MigraineError.stopIteration
    ∧ (MigraineError.stopIteration
        == MigraineError.migrationError ("script not found for version 0.0.2")) = false
    ∧ ∀ (target : Version) (scriptFiles : List (Version × Path))
        (ledger : List Migration) (now : Nat),
        ∃ r, migrate target scriptFiles ledger now = Except.ok r :=
  ⟨rfl, rfl, rfl, migrate_isOk⟩

/-- Claim C5 counterexample: with two scripts sharing version 0.0.1 migrate does
not fail at all: it computes a forward strategy holding the version twice,
resolves both occurrences to the first file, runs that one file twice,
appends a ledger entry and succeeds, so there is no pre-flight duplicate
detection and the database state does change. -/
theorem c5_counterexample :
    migrate v001 [(v001, "a.py"), (v001, "b.py")] [] 0
      = Except.ok ([Migration.mk v001 0],
        [(v001, "a.py", MigrationDirection.FORWARD),
         (v001, "a.py", MigrationDirection.FORWARD)]) := rfl

/-- Claim C5 amended: the code performs no duplicate-version detection: when the
available scripts contain two entries with the same version, migrate does
not fail on that account and the run completes successfully. -/
theorem c5_no_duplicate_detection (target v : Version) (p1 p2 : Path)
    (scriptFiles : List (Version × Path)) (ledger : List Migration) (now : Nat)
    (_h1 : (v, p1) ∈ scriptFiles) (_h2 : (v, p2) ∈ scriptFiles) (_h3 : p1 ≠ p2) :
    ∃ r, migrate target scriptFiles ledger now = Except.ok r :=
  migrate_isOk target scriptFiles ledger now

/-- Claim C5 amended witness: two script files with the duplicate version 0.0.1
instantiate the theorem. -/
theorem c5_no_duplicate_detection_witness :
    (v001, ("a.py" : Path)) ∈ [(v001, ("a.py" : Path)), (v001, "b.py")]
    ∧ (v001, ("b.py" : Path)) ∈ [(v001, ("a.py" : Path)), (v001, "b.py")]
    ∧ ("a.py" : Path) ≠ "b.py"
    ∧ ∃ r, migrate v001 [(v001, "a.py"), (v001, "b.py")] [] 0 = Except.ok r :=
  ⟨by simp, by simp, by decide,
   c5_no_duplicate_detection v001 v001 ("a.py") ("b.py")
     [(v001, "a.py"), (v001, "b.py")] [] 0 (by simp) (by simp) (by decide)⟩

/-- Claim C7: a successful migrate run appends at most one ledger entry: none at
all when the strategy is the no-strategy value, in which case migrate also
runs no script, and exactly one entry for the target version when a
strategy was computed. -/
theorem c7_at_most_one_append (target : Version) (scriptFiles : List (Version × Path))
    (ledger : List Migration) (now : Nat)
    (result : List Migration × List (Version × Path × MigrationDirection))
    (h : migrate target scriptFiles ledger now = Except.ok result) :
    (calculateMigrationStrategy (currentVersionOf ledger) target
        (scriptFiles.map Prod.fst) = Except.ok none →
      result.1 = ledger ∧ result.2 = [])
    ∧ ∀ s, calculateMigrationStrategy (currentVersionOf ledger) target
          (scriptFiles.map Prod.fst) = Except.ok (some s) →
        result.1 = ledger ++ [Migration.mk target now] := by
  constructor
  · intro hn
    simp only [migrate, hn, Except.ok.injEq] at h
    rw [← h]
    exact ⟨rfl, rfl⟩
  · intro s hs
    obtain ⟨d, vs⟩ := s
    simp only [migrate, hs] at h
    cases hrs : runStrategy d vs scriptFiles with
    | error e =>
      rw [hrs] at h
      simp at h
    | ok ex =>
      rw [hrs] at h
      simp only [Except.ok.injEq] at h
      rw [← h]

/-- Claim C7 witness: the run of migrate with target 0.0.1, no scripts and an
empty ledger instantiates the theorem. -/
theorem c7_at_most_one_append_witness :
    (calculateMigrationStrategy (currentVersionOf []) v001
        (([] : List (Version × Path)).map Prod.fst) = Except.ok none →
      (([Migration.mk v001 0],
          ([] : List (Version × Path × MigrationDirection))) :
        List Migration × List (Version × Path × MigrationDirection)).1 = []
      ∧ (([Migration.mk v001 0],
          ([] : List (Version × Path × MigrationDirection))) :
        List Migration × List (Version × Path × MigrationDirection)).2 = [])
    ∧ ∀ s, calculateMigrationStrategy (currentVersionOf []) v001
          (([] : List (Version × Path)).map Prod.fst) = Except.ok (some s) →
        (([Migration.mk v001 0],
            ([] : List (Version × Path × MigrationDirection))) :
          List Migration × List (Version × Path × MigrationDirection)).1
          = [] ++ [Migration.mk v001 0] :=
  c7_at_most_one_append v001 [] [] 0 ([Migration.mk v001 0], []) rfl

/-- Claim C8: the ledger read returns none exactly on the empty ledger and
otherwise some entry of the ledger whose applied datetime is maximal, and
when the read returns none the orchestrator uses the baseline version 0.0.0
as the current database version. -/
theorem c8_latest_ledger_entry :
    findLastMigration [] = none
    ∧ (∀ (ledger : List Migration) (m : Migration),
        findLastMigration ledger = some m →
        m ∈ ledger ∧ ∀ m2 ∈ ledger,
          m2.application_datetime ≤ m.application_datetime)
    ∧ (∀ (m : Migration) (ms : List Migration),
        ∃ m2, findLastMigration (m :: ms) = some m2)
    ∧ ∀ ledger : List Migration, findLastMigration ledger = none →
        currentVersionOf ledger = initialDatabaseVersion := by
  refine ⟨rfl, findLastMigration_spec, findLastMigration_cons_isSome, ?_⟩
  intro ledger h
  unfold currentVersionOf
  rw [h]

/-- Claim C8 witness: on a two-entry ledger the read returns the entry with the
larger datetime, and the empty ledger makes the orchestrator use 0.0.0. -/
theorem c8_latest_ledger_entry_witness :
    (Migration.mk v001 5 ∈ [Migration.mk v002 3, Migration.mk v001 5]
      ∧ ∀ m2 ∈ [Migration.mk v002 3, Migration.mk v001 5],
          m2.application_datetime ≤ (Migration.mk v001 5).application_datetime)
    ∧ currentVersionOf [] = initialDatabaseVersion :=
  ⟨c8_latest_ledger_entry.2.1 [Migration.mk v002 3, Migration.mk v001 5]
      (Migration.mk v001 5) rfl,
   c8_latest_ledger_entry.2.2.2 [] rfl⟩

/-- Claim C10: when current and target differ but no available version lies in
the selection range, the strategy is a direction with an empty ordered
list, and migrate on an empty strategy list executes zero scripts yet still
appends one ledger entry recording the target version. -/
theorem c10_empty_selection :
    (∀ (current target : Version) (available : List Version),
      Version.compare current target = -1 →
      available.filter (fun v => Version.compare current v == -1 &&
        (Version.compare v target == -1 || Version.compare v target == 0)) = [] →
      calculateMigrationStrategy current target available
        = Except.ok (some (MigrationDirection.FORWARD, [])))
    ∧ (∀ (current target : Version) (available : List Version),
      Version.compare current target = 1 →
      available.filter (fun v => Version.compare target v == -1 &&
        (Version.compare v current == -1 || Version.compare v current == 0)) = [] →
      calculateMigrationStrategy current target available
        = Except.ok (some (MigrationDirection.BACKWARD, [])))
    ∧ ∀ (target : Version) (scriptFiles : List (Version × Path))
        (ledger : List Migration) (now : Nat) (d : MigrationDirection),
        calculateMigrationStrategy (currentVersionOf ledger) target
          (scriptFiles.map Prod.fst) = Except.ok (some (d, [])) →
        migrate target scriptFiles ledger now
          = Except.ok (ledger ++ [Migration.mk target now], []) := by
  refine ⟨?_, ?_, ?_⟩
  · intro current target available h hempty
    rw [calc_eq_of_compare_neg current target available h, forward_filter_eq, hempty]
    rfl
  · intro current target available h hempty
    rw [calc_eq_of_compare_pos current target available h, backward_filter_eq, hempty]
    rfl
  · intro target scriptFiles ledger now d hcalc
    simp [migrate, hcalc, runStrategy]

/-- Claim C10 witness: reconciling 0.0.0 towards 0.0.1 with nothing available
gives a forward strategy with an empty list, and running migrate with
target 0.0.1 and no scripts appends exactly the one ledger entry. -/
theorem c10_empty_selection_witness :
    calculateMigrationStrategy v000 v001 []
      = Except.ok (some (MigrationDirection.FORWARD, []))
    ∧ migrate v001 [] [] 0 = Except.ok ([] ++ [Migration.mk v001 0], []) :=
  ⟨c10_empty_selection.1 v000 v001 [] (by decide) rfl,
   c10_empty_selection.2.2 v001 [] [] 0 MigrationDirection.FORWARD rfl⟩

end Migraine
